import Mathlib

/-!
Verification of the AIHedgeFund data-pipeline orchestration core.

This file embeds, as executable Lean definitions, the scheduling and
fetch-client logic of the repository:

  * `wait_if_needed`     — RateLimiter.wait_if_needed (economic_report_fetcher.py)
  * `fetch_with_retry`   — EconomicReportFetcher.fetch_with_retry (economic_report_fetcher.py)
  * `make_request`       — make_request (unusual_whales_api.py)
  * `runJobWrapper`      — the per-job try/except wrappers (scheduler.py run_* methods)
  * `run_fetcher`        — DataPipelineRunner.run_fetcher (run_all_fetchers.py)
  * `run_pending`/`tickLoop` — the schedule-library tick loop driven by scheduler.py
  * `startEnter`         — Scheduler.start (scheduler.py) up to entering the loop
  * `run_all_fetchers`/`run_one_time`/`main_once` — run_all_fetchers.py one-shot mode

Python wall-clock times are modelled as rationals, Python exceptions as an
explicit outcome type, and the external network as an oracle argument.
-/

/-! ## Python values and truthiness (for the diskcache-backed cache of
unusual_whales_api.py) -/

/-- A JSON-like Python value as returned by `response.json()` and stored in
the diskcache `Cache`. -/
inductive PyVal where
  | none
  | bool (b : Bool)
  | int (n : ℤ)
  | str (s : String)
  | list (xs : List PyVal)
  | dict (xs : List (String × PyVal))

/-- Python truthiness, as applied by `if cached_data:` in make_request:
`None`, `False`, `0`, `""`, `[]` and the empty dict are falsy. -/
def truthy : PyVal → Bool
  | PyVal.none => false
  | PyVal.bool b => b
  | PyVal.int n => n != 0
  | PyVal.str s => s != ""
  | PyVal.list xs => !xs.isEmpty
  | PyVal.dict xs => !xs.isEmpty

/-! ## The response cache (diskcache `Cache` as used by unusual_whales_api.py) -/

/-- One cached entry: the payload and its absolute expiry instant
(`set` time + `expire` seconds). -/
structure CacheEntry where
  value : PyVal
  expireAt : ℚ

/-- `cache.get(key)`: the stored value while unexpired, otherwise a miss
(diskcache returns the default, `None`). -/
def cacheGet (c : List (String × CacheEntry)) (key : String) (now : ℚ) : Option PyVal :=
  match c.lookup key with
  | some e => if now < e.expireAt then some e.value else Option.none
  | Option.none => Option.none

/-- `cache.set(key, data, expire=ttl)` at instant `now`. -/
def cacheSet (c : List (String × CacheEntry)) (key : String) (v : PyVal) (now ttl : ℚ) :
    List (String × CacheEntry) :=
  (key, ⟨v, now + ttl⟩) :: c

/-- `CACHE_EXPIRY = 3600` (unusual_whales_api.py line 42). -/
def CACHE_EXPIRY : ℚ := 3600

/-- Result of one invocation of make_request: the returned value or raised
`UnusualWhalesError`, the cache afterwards, and how many calls went through
the rate-limited `LimiterSession` (each `session.get` is one network call and
one rate-limiter interaction). -/
structure MRResult where
  result : Except String PyVal
  cache : List (String × CacheEntry)
  sessionGets : ℕ

/-- make_request (unusual_whales_api.py lines 68-105), one invocation.
`net` is the outcome `session.get(...).raise_for_status(); response.json()`
would produce.  The source binds `cached_data = cache.get(cache_key)` (which
is `None` on a miss) and branches on `if cached_data:` — Python truthiness,
not presence.  On a cache hit it returns before touching the session; on the
network path a successful payload is cached for `CACHE_EXPIRY` seconds and a
`requests.RequestException` is re-raised as `UnusualWhalesError`. -/
def make_request (cache : List (String × CacheEntry)) (key : String)
    (net : Except String PyVal) (now : ℚ) : MRResult :=
  let cached : PyVal := (cacheGet cache key now).getD PyVal.none
  if truthy cached then
    ⟨Except.ok cached, cache, 0⟩
  else
    match net with
    | Except.ok data => ⟨Except.ok data, cacheSet cache key data now CACHE_EXPIRY, 1⟩
    | Except.error e => ⟨Except.error ("API request failed: " ++ e), cache, 1⟩

/-- Two serial invocations of make_request with the identical cache key,
starting from an empty cache: the network oracle answers `net1` at instant
`t1` and `net2` at instant `t2`. -/
def twoRequests (key : String) (net1 net2 : Except String PyVal) (t1 t2 : ℚ) :
    MRResult × MRResult :=
  let r1 := make_request [] key net1 t1
  let r2 := make_request r1.cache key net2 t2
  (r1, r2)

/-! ## Retrying fetch (EconomicReportFetcher.fetch_with_retry,
economic_report_fetcher.py lines 94-109) -/

/-- Observable events of one fetch_with_retry call: consulting the
rate limiter (`self.http_limiter.wait_if_needed()`), issuing attempt `i`
(`self.session.get(url, timeout=10)` plus `raise_for_status`), and the
exponential-backoff sleep `time.sleep(2 ** attempt)` between attempts. -/
inductive FetchEv where
  | acquire
  | attempt (i : ℕ)
  | backoff (secs : ℕ)
deriving DecidableEq

def FetchEv.isAttempt : FetchEv → Bool
  | FetchEv.attempt _ => true
  | _ => false

def FetchEv.isAcquire : FetchEv → Bool
  | FetchEv.acquire => true
  | _ => false

def countAttempts (evs : List FetchEv) : ℕ := (evs.filter FetchEv.isAttempt).length

def countAcquires (evs : List FetchEv) : ℕ := (evs.filter FetchEv.isAcquire).length

def backoffSecs (evs : List FetchEv) : List ℕ :=
  evs.filterMap fun e =>
    match e with
    | FetchEv.backoff s => some s
    | _ => Option.none

/-- The `for attempt in range(max_retries)` loop of fetch_with_retry.
`get i` is the outcome of the request on attempt `i` (a
`requests.RequestException` is the only caught error class).  On success the
response is returned; on failure the code sleeps `2 ** attempt` and continues
while `attempt < max_retries - 1`, and re-raises on the last attempt.  When
the range is empty (max_retries = 0) the Python function falls off the end
and returns `None`, modelled as `Except.ok Option.none`. -/
def retryLoop (get : ℕ → Except String String) :
    ℕ → ℕ → Except String (Option String) × List FetchEv
  | 0, _ => (Except.ok Option.none, [])
  | remaining + 1, attempt =>
    match get attempt with
    | Except.ok r => (Except.ok (some r), [FetchEv.attempt attempt])
    | Except.error e =>
      if remaining = 0 then
        (Except.error e, [FetchEv.attempt attempt])
      else
        let rest := retryLoop get remaining (attempt + 1)
        (rest.1, FetchEv.attempt attempt :: FetchEv.backoff (2 ^ attempt) :: rest.2)

/-- fetch_with_retry (economic_report_fetcher.py lines 94-109): consults the
HTTP rate limiter once, before the loop, then runs the retry loop. -/
def fetch_with_retry (get : ℕ → Except String String) (max_retries : ℕ) :
    Except String (Option String) × List FetchEv :=
  let r := retryLoop get max_retries 0
  (r.1, FetchEv.acquire :: r.2)

/-! ### Lemmas about the retry loop -/

lemma retryLoop_allFail (get : ℕ → Except String String)
    (hf : ∀ i, ∃ e, get i = Except.error e) :
    ∀ m a, 1 ≤ m →
      countAttempts (retryLoop get m a).2 = m ∧
      ∃ e, (retryLoop get m a).1 = Except.error e := by
  intro m
  induction m with
  | zero => intro a h; omega
  | succ n ih =>
    intro a _
    obtain ⟨e, he⟩ := hf a
    by_cases hn : n = 0
    · subst hn
      simp [retryLoop, he, countAttempts, FetchEv.isAttempt]
    · have h1 : 1 ≤ n := Nat.one_le_iff_ne_zero.mpr hn
      obtain ⟨hcount, e', he'⟩ := ih (a + 1) h1
      refine ⟨?_, e', ?_⟩
      · simp only [retryLoop, he, if_neg hn, countAttempts, List.filter_cons,
          FetchEv.isAttempt]
        simpa [countAttempts] using hcount
      · simpa [retryLoop, he, if_neg hn] using he'

lemma retryLoop_no_acquire (get : ℕ → Except String String) :
    ∀ m a, countAcquires (retryLoop get m a).2 = 0 := by
  intro m
  induction m with
  | zero => intro a; simp [retryLoop, countAcquires]
  | succ n ih =>
    intro a
    cases hg : get a with
    | ok r => simp [retryLoop, hg, countAcquires, FetchEv.isAcquire]
    | error e =>
      by_cases hn : n = 0
      · simp [retryLoop, hg, hn, countAcquires, FetchEv.isAcquire]
      · simp only [retryLoop, hg, if_neg hn, countAcquires, List.filter_cons,
          FetchEv.isAcquire]
        simpa [countAcquires] using ih (a + 1)

lemma retryLoop_backoffs (get : ℕ → Except String String)
    (hf : ∀ i, ∃ e, get i = Except.error e) :
    ∀ m a, backoffSecs (retryLoop get m a).2 =
      (List.range (m - 1)).map (fun i => 2 ^ (a + i)) := by
  intro m
  induction m with
  | zero => intro a; simp [retryLoop, backoffSecs]
  | succ n ih =>
    intro a
    obtain ⟨e, he⟩ := hf a
    by_cases hn : n = 0
    · subst hn; simp [retryLoop, he, backoffSecs]
    · have hrange : List.range n = 0 :: (List.range (n - 1)).map (· + 1) := by
        cases n with
        | zero => exact absurd rfl hn
        | succ k =>
          simp [List.range_succ_eq_map, Nat.add_comm]
      simp only [retryLoop, he, if_neg hn, backoffSecs, List.filterMap_cons,
        Nat.succ_sub_one]
      rw [hrange]
      simp only [List.map_cons, Nat.add_zero, List.map_map]
      have hrec := ih (a + 1)
      simp only [backoffSecs] at hrec
      rw [hrec]
      have hfun : ((fun i => 2 ^ (a + i)) ∘ fun x : ℕ => x + 1) =
          fun i : ℕ => 2 ^ (a + 1 + i) := by
        funext i
        show 2 ^ (a + (i + 1)) = 2 ^ (a + 1 + i)
        congr 1
        omega
      rw [hfun]

/-- C3 — Retry bound: a fetch whose underlying request always fails with a
retryable error (`requests.RequestException`) is attempted exactly
`max_retries` times (the parameter the source defaults to 3) — never more,
never fewer — and after the last attempt the error is re-raised to the
caller rather than retried further. -/
theorem retry_bound (get : ℕ → Except String String) (max_retries : ℕ)
    (hf : ∀ i, ∃ e, get i = Except.error e) (hm : 1 ≤ max_retries) :
    countAttempts (fetch_with_retry get max_retries).2 = max_retries ∧
    ∃ e, (fetch_with_retry get max_retries).1 = Except.error e := by
  obtain ⟨hcount, e, he⟩ := retryLoop_allFail get hf max_retries 0 hm
  refine ⟨?_, e, ?_⟩
  · simp only [fetch_with_retry, countAttempts, List.filter_cons, FetchEv.isAcquire]
    simpa [countAttempts, FetchEv.isAttempt] using hcount
  · simpa [fetch_with_retry] using he

/-- Witness for C3 at the source's default `max_retries = 3` and an
always-failing request. -/
theorem retry_bound_witness :
    countAttempts (fetch_with_retry (fun _ => Except.error "timeout") 3).2 = 3 ∧
    ∃ e, (fetch_with_retry (fun _ => Except.error "timeout") 3).1 = Except.error e :=
  retry_bound (fun _ => Except.error "timeout") 3 (fun _ => ⟨"timeout", rfl⟩) (by decide)

/-- C8 counterexample — on a request that always raises a retryable
`requests.RequestException`, fetch_with_retry with the default
`max_retries = 3` issues 3 attempts but consults the rate limiter only once
(before the loop), not once per attempt as the claim states. -/
theorem retry_limiter_counterexample :
    countAttempts (fetch_with_retry (fun _ => Except.error "connection reset") 3).2 = 3 ∧
    countAcquires (fetch_with_retry (fun _ => Except.error "connection reset") 3).2 = 1 ∧
    countAcquires (fetch_with_retry (fun _ => Except.error "connection reset") 3).2 ≠
      countAttempts (fetch_with_retry (fun _ => Except.error "connection reset") 3).2 := by
  refine ⟨rfl, rfl, by decide⟩

/-- C8 amended — the rate limiter is consulted exactly once per
fetch_with_retry call, before the first attempt; between consecutive
attempts of an always-failing fetch the code waits `2 ^ attempt` seconds
(exponential backoff: 1s, 2s, ... for attempts 0, 1, ...), without going
back through the limiter. -/
theorem retry_limiter_once (get : ℕ → Except String String) (m : ℕ)
    (hf : ∀ i, ∃ e, get i = Except.error e) :
    countAcquires (fetch_with_retry get m).2 = 1 ∧
    backoffSecs (fetch_with_retry get m).2 = (List.range (m - 1)).map (fun i => 2 ^ i) := by
  constructor
  · simp only [fetch_with_retry, countAcquires, List.filter_cons, FetchEv.isAcquire]
    simpa [countAcquires] using retryLoop_no_acquire get m 0
  · have h := retryLoop_backoffs get hf m 0
    simp only [Nat.zero_add] at h
    simpa [fetch_with_retry, backoffSecs] using h

/-- Witness for C8's amended theorem at `max_retries = 3`. -/
theorem retry_limiter_once_witness :
    countAcquires (fetch_with_retry (fun _ => Except.error "timeout") 3).2 = 1 ∧
    backoffSecs (fetch_with_retry (fun _ => Except.error "timeout") 3).2 =
      (List.range 2).map (fun i => 2 ^ i) :=
  retry_limiter_once (fun _ => Except.error "timeout") 3 (fun _ => ⟨"timeout", rfl⟩)

/-! ### Cache lemmas for make_request -/

lemma twoRequests_fst (key : String) (v : PyVal) (net2 : Except String PyVal) (t1 t2 : ℚ) :
    (twoRequests key (Except.ok v) net2 t1 t2).1 =
      ⟨Except.ok v, cacheSet [] key v t1 CACHE_EXPIRY, 1⟩ := rfl

lemma cacheGet_after_set (c : List (String × CacheEntry)) (key : String) (v : PyVal)
    (now ttl t : ℚ) (h : t < now + ttl) :
    cacheGet (cacheSet c key v now ttl) key t = some v := by
  simp [cacheGet, cacheSet, List.lookup, h]

lemma make_request_hit (c : List (String × CacheEntry)) (key : String) (v : PyVal)
    (net : Except String PyVal) (now : ℚ)
    (hget : cacheGet c key now = some v) (ht : truthy v = true) :
    make_request c key net now = ⟨Except.ok v, c, 0⟩ := by
  unfold make_request
  rw [hget]
  simp [ht]

lemma make_request_falsy (c : List (String × CacheEntry)) (key : String)
    (net : Except String PyVal) (now : ℚ)
    (h : truthy ((cacheGet c key now).getD PyVal.none) = false) :
    (make_request c key net now).sessionGets = 1 := by
  simp only [make_request, h, Bool.false_eq_true, if_false]
  cases net <;> rfl

/-- C9 — the cache lookup in make_request tests the cached value for Python
truthiness, not presence: with a successful first response of payload `v`,
a second identical request within the TTL touches the rate-limited session
again exactly when `v` is falsy (empty dict/list, `None`, ...), and is a
pure cache hit exactly when `v` is truthy. -/
theorem cache_truthiness (key : String) (v : PyVal) (net2 : Except String PyVal)
    (t1 t2 : ℚ) (h2 : t2 < t1 + CACHE_EXPIRY) :
    (twoRequests key (Except.ok v) net2 t1 t2).1.sessionGets = 1 ∧
    (twoRequests key (Except.ok v) net2 t1 t2).2.sessionGets =
      (if truthy v then 0 else 1) := by
  have hget : cacheGet (cacheSet [] key v t1 CACHE_EXPIRY) key t2 = some v :=
    cacheGet_after_set [] key v t1 CACHE_EXPIRY t2 h2
  refine ⟨rfl, ?_⟩
  show (make_request (cacheSet [] key v t1 CACHE_EXPIRY) key net2 t2).sessionGets = _
  by_cases ht : truthy v = true
  · rw [make_request_hit _ _ _ _ _ hget ht, ht]
    rfl
  · have ht' : truthy v = false := by
      cases h : truthy v
      · rfl
      · exact absurd h ht
    rw [make_request_falsy _ _ _ _ (by rw [hget]; exact ht'), ht']
    rfl

/-- Witness for C9 with the falsy payload `[]` (empty JSON array) at
`t1 = 0`, `t2 = 1`. -/
theorem cache_truthiness_witness :
    (twoRequests "k" (Except.ok (PyVal.list [])) (Except.ok (PyVal.list [])) 0 1).1.sessionGets = 1 ∧
    (twoRequests "k" (Except.ok (PyVal.list [])) (Except.ok (PyVal.list [])) 0 1).2.sessionGets =
      (if truthy (PyVal.list []) then 0 else 1) :=
  cache_truthiness "k" (PyVal.list []) (Except.ok (PyVal.list [])) 0 1 (by norm_num [CACHE_EXPIRY])

/-- C4 counterexample — a provider response whose payload is the empty JSON
object `{}` is cached, yet the identical request issued again within the TTL
finds the cached value falsy, so it performs a second network call through
the rate-limited session: two identical requests within `ttl` cause two
underlying network calls, not one, although the cache holds a live entry. -/
theorem cache_hit_counterexample :
    (twoRequests "k" (Except.ok (PyVal.dict [])) (Except.ok (PyVal.dict [])) 0 1).1.sessionGets = 1 ∧
    (twoRequests "k" (Except.ok (PyVal.dict [])) (Except.ok (PyVal.dict [])) 0 1).2.sessionGets = 1 ∧
    cacheGet (twoRequests "k" (Except.ok (PyVal.dict [])) (Except.ok (PyVal.dict [])) 0 1).1.cache
      "k" 1 = some (PyVal.dict []) := by
  have hc : (twoRequests "k" (Except.ok (PyVal.dict [])) (Except.ok (PyVal.dict [])) 0 1).1.cache =
      cacheSet [] "k" (PyVal.dict []) 0 CACHE_EXPIRY := rfl
  have hget : cacheGet (cacheSet [] "k" (PyVal.dict []) 0 CACHE_EXPIRY) "k" 1 =
      some (PyVal.dict []) :=
    cacheGet_after_set [] "k" (PyVal.dict []) 0 CACHE_EXPIRY 1 (by norm_num [CACHE_EXPIRY])
  refine ⟨rfl, ?_, ?_⟩
  · show (make_request (twoRequests "k" (Except.ok (PyVal.dict []))
      (Except.ok (PyVal.dict [])) 0 1).1.cache "k" (Except.ok (PyVal.dict [])) 1).sessionGets = 1
    rw [hc]
    exact make_request_falsy _ _ _ _ (by rw [hget]; rfl)
  · rw [hc]
    exact hget

/-- C4 amended — for every request whose cache key has a live cached entry
holding a *truthy* value, make_request returns the cached value immediately
with no session call (hence no network and no rate-limiter interaction) and
an unchanged cache; consequently two identical requests within `ttl` whose
first response payload is truthy perform exactly one underlying network
call. -/
theorem cache_hit_avoids_network (key : String) (v : PyVal) (net2 : Except String PyVal)
    (t1 t2 : ℚ) (h2 : t2 < t1 + CACHE_EXPIRY) (ht : truthy v = true) :
    (twoRequests key (Except.ok v) net2 t1 t2).1.sessionGets = 1 ∧
    (twoRequests key (Except.ok v) net2 t1 t2).2 =
      ⟨Except.ok v, (twoRequests key (Except.ok v) net2 t1 t2).1.cache, 0⟩ := by
  have hget : cacheGet (cacheSet [] key v t1 CACHE_EXPIRY) key t2 = some v :=
    cacheGet_after_set [] key v t1 CACHE_EXPIRY t2 h2
  exact ⟨rfl, make_request_hit _ _ _ _ _ hget ht⟩

/-- Witness for C4's amended theorem: a truthy payload fetched at `t1 = 0`
and requested again at `t2 = 1`. -/
theorem cache_hit_avoids_network_witness :
    (twoRequests "k" (Except.ok (PyVal.int 5)) (Except.ok (PyVal.int 7)) 0 1).1.sessionGets = 1 ∧
    (twoRequests "k" (Except.ok (PyVal.int 5)) (Except.ok (PyVal.int 7)) 0 1).2 =
      ⟨Except.ok (PyVal.int 5),
       (twoRequests "k" (Except.ok (PyVal.int 5)) (Except.ok (PyVal.int 7)) 0 1).1.cache, 0⟩ :=
  cache_hit_avoids_network "k" (PyVal.int 5) (Except.ok (PyVal.int 7)) 0 1
    (by norm_num [CACHE_EXPIRY]) (by decide)

/-! ## Job dispatch: the per-job wrappers and the schedule-library tick loop
(scheduler.py, run_all_fetchers.py) -/

/-- The outcome of running a Python callable: a normal return, or a raised
`Exception` (the class every dispatch-boundary handler catches). -/
inductive PyOutcome (α : Type) where
  | ok (a : α)
  | raises (msg : String)
deriving DecidableEq

/-- The per-job wrapper shared by every run_* method of Scheduler
(scheduler.py lines 53-175): log the start, run the body, log completion —
and catch any Exception at the dispatch boundary, logging the job name and
error detail.  The wrapper itself always returns normally. -/
def runJobWrapper (name : String) (body : PyOutcome Unit) : PyOutcome (List String) :=
  match body with
  | PyOutcome.ok _ =>
    PyOutcome.ok ["Starting " ++ name, "Completed " ++ name]
  | PyOutcome.raises e =>
    PyOutcome.ok ["Starting " ++ name, "Error in " ++ name ++ ": " ++ e]

/-- DataPipelineRunner.run_fetcher (run_all_fetchers.py lines 98-120):
False when the fetcher was never initialized; otherwise the fetcher's own
boolean result, with a raised exception caught at this boundary and turned
into False — never propagated. -/
def run_fetcher (initialized : Bool) (behavior : PyOutcome Bool) : Bool :=
  if initialized then
    match behavior with
    | PyOutcome.ok r => r
    | PyOutcome.raises _ => false
  else false

/-- A job of the `schedule` PyPI library, as registered by
Scheduler.schedule_jobs (scheduler.py lines 177-198):
`schedule.every(p).minutes.do(f)` stores the period and the next-run
instant; `run_pending` runs a job when `next_run <= now` and then
re-schedules it one period after the run. -/
structure SJob where
  name : String
  period : ℚ
  next_run : ℚ
deriving DecidableEq

/-- Registration at instant `now`: the schedule library sets the first
`next_run` one full period after registration (a never-run job is not due
until then). -/
def mkScheduleJob (name : String) (period now : ℚ) : SJob :=
  ⟨name, period, now + period⟩

/-- Job.should_run of the schedule library: due iff `next_run <= now`. -/
def SJob.should_run (j : SJob) (now : ℚ) : Bool := decide (j.next_run ≤ now)

/-- One `schedule.run_pending()` pass at instant `now` (the body of the
`while self.is_running` loop of Scheduler.start): every job whose
`next_run <= now` is run through its try/except wrapper and re-scheduled at
`now + period`.  `beh` gives each handler body's outcome.  Returns the
updated jobs and, per executed job, its name and the wrapper's outcome. -/
def run_pending (beh : String → PyOutcome Unit) (now : ℚ) :
    List SJob → List SJob × List (String × PyOutcome (List String))
  | [] => ([], [])
  | j :: js =>
    let rest := run_pending beh now js
    if j.should_run now then
      (⟨j.name, j.period, now + j.period⟩ :: rest.1,
       (j.name, runJobWrapper j.name (beh j.name)) :: rest.2)
    else
      (j :: rest.1, rest.2)

/-- The tick loop observed at the tick instants `ts`: the final schedule
table and the dispatch record (instant, job name, wrapper outcome). -/
def tickLoop (beh : String → PyOutcome Unit) :
    List SJob → List ℚ → List SJob × List (ℚ × String × PyOutcome (List String))
  | jobs, [] => (jobs, [])
  | jobs, t :: ts =>
    let p := run_pending beh t jobs
    let rest := tickLoop beh p.1 ts
    (rest.1, p.2.map (fun o => (t, o)) ++ rest.2)

lemma run_pending_wrapped (beh : String → PyOutcome Unit) (now : ℚ) (jobs : List SJob) :
    ∀ out ∈ (run_pending beh now jobs).2, out.2 = runJobWrapper out.1 (beh out.1) := by
  induction jobs with
  | nil => intro out h; simp [run_pending] at h
  | cons j js ih =>
    intro out h
    by_cases hd : j.should_run now = true
    · simp only [run_pending, hd, if_true, List.mem_cons] at h
      rcases h with h | h
      · subst h; rfl
      · exact ih out h
    · simp only [run_pending, hd, Bool.false_eq_true, if_false] at h
      exact ih out h

lemma run_pending_indep (beh beh' : String → PyOutcome Unit) (now : ℚ) (jobs : List SJob) :
    (run_pending beh now jobs).1 = (run_pending beh' now jobs).1 ∧
    (run_pending beh now jobs).2.map Prod.fst = (run_pending beh' now jobs).2.map Prod.fst := by
  induction jobs with
  | nil => exact ⟨rfl, rfl⟩
  | cons j js ih =>
    by_cases hd : j.should_run now = true
    · simp only [run_pending, hd, if_true, List.map_cons]
      exact ⟨by rw [ih.1], by rw [ih.2]⟩
    · simp only [run_pending, hd, Bool.false_eq_true, if_false]
      exact ⟨by rw [ih.1], ih.2⟩

lemma tickLoop_wrapped (beh : String → PyOutcome Unit) (ts : List ℚ) :
    ∀ jobs, ∀ ev ∈ (tickLoop beh jobs ts).2, ev.2.2 = runJobWrapper ev.2.1 (beh ev.2.1) := by
  induction ts with
  | nil => intro jobs ev h; simp [tickLoop] at h
  | cons t ts ih =>
    intro jobs ev h
    simp only [tickLoop, List.mem_append, List.mem_map] at h
    rcases h with ⟨out, hmem, rfl⟩ | h
    · exact run_pending_wrapped beh t jobs out hmem
    · exact ih _ ev h

lemma tickLoop_indep (beh beh' : String → PyOutcome Unit) (ts : List ℚ) :
    ∀ jobs, (tickLoop beh jobs ts).1 = (tickLoop beh' jobs ts).1 ∧
      (tickLoop beh jobs ts).2.map (fun e => (e.1, e.2.1)) =
        (tickLoop beh' jobs ts).2.map (fun e => (e.1, e.2.1)) := by
  induction ts with
  | nil => intro jobs; exact ⟨rfl, rfl⟩
  | cons t ts ih =>
    intro jobs
    obtain ⟨hjobs, hnames⟩ := run_pending_indep beh beh' t jobs
    obtain ⟨hjobs', hrest⟩ := ih (run_pending beh' t jobs).1
    constructor
    · simp only [tickLoop]
      rw [hjobs, hjobs']
    · simp only [tickLoop, List.map_append, List.map_map]
      rw [hjobs]
      refine congrArg₂ List.append ?_ hrest
      have h1 : ((fun e : ℚ × String × PyOutcome (List String) => (e.1, e.2.1)) ∘
          fun o : String × PyOutcome (List String) => (t, o)) =
          (fun p : String × PyOutcome (List String) => (t, p.1)) := rfl
      have h2 : (fun p : String × PyOutcome (List String) => ((t : ℚ), p.1)) =
          (fun n : String => ((t : ℚ), n)) ∘ Prod.fst := rfl
      rw [h1, h2, ← List.map_map, ← List.map_map, hnames]

/-- C1 — Job isolation: every handler dispatched by the tick loop runs
inside its try/except wrapper, which catches any raised exception, logs the
job name and error detail, and returns normally — the exception never
escapes the dispatch boundary.  Consequently the schedule table and the
whole dispatch record (which jobs run at which ticks) are identical under
any two assignments of handler outcomes: a handler that always throws
changes nothing about when the tick loop dispatches the other registered
jobs, in the same or any subsequent tick.  run_fetcher likewise converts a
raised exception into a False result instead of propagating it. -/
theorem job_isolation (jobs : List SJob) (ts : List ℚ)
    (beh beh' : String → PyOutcome Unit) :
    (∀ ev ∈ (tickLoop beh jobs ts).2, ∃ logs, ev.2.2 = PyOutcome.ok logs) ∧
    (∀ ev ∈ (tickLoop beh jobs ts).2, ∀ msg, beh ev.2.1 = PyOutcome.raises msg →
      ev.2.2 = PyOutcome.ok
        ["Starting " ++ ev.2.1, "Error in " ++ ev.2.1 ++ ": " ++ msg]) ∧
    (tickLoop beh jobs ts).2.map (fun e => (e.1, e.2.1)) =
      (tickLoop beh' jobs ts).2.map (fun e => (e.1, e.2.1)) ∧
    (tickLoop beh jobs ts).1 = (tickLoop beh' jobs ts).1 ∧
    (∀ (initialized : Bool) (msg : String),
      run_fetcher initialized (PyOutcome.raises msg) = false) := by
  refine ⟨?_, ?_, (tickLoop_indep beh beh' ts jobs).2, (tickLoop_indep beh beh' ts jobs).1, ?_⟩
  · intro ev hev
    rw [tickLoop_wrapped beh ts jobs ev hev]
    cases beh ev.2.1 <;> exact ⟨_, rfl⟩
  · intro ev hev msg hmsg
    rw [tickLoop_wrapped beh ts jobs ev hev, hmsg]
    rfl
  · intro initialized msg
    cases initialized <;> rfl

/-! ## Scheduler.start and the due semantics (scheduler.py lines 177-264) -/

/-- The due predicate exactly as the specification words it (§4.4): a job is
due when `now - lastRunAt >= cadence`, or when `lastRunAt` is absent, and
its running flag is false.  Stated only for comparison against the
schedule-library semantics the code actually uses. -/
def specDue (lastRunAt : Option ℚ) (cadence now : ℚ) (running : Bool) : Bool :=
  !running &&
    match lastRunAt with
    | Option.none => true
    | some t => decide (cadence ≤ now - t)

/-- Scheduler state: the `is_running` flag and the schedule table built by
schedule_jobs. -/
structure SchedulerState where
  is_running : Bool
  jobs : List SJob
deriving DecidableEq

/-- Scheduler.start (scheduler.py lines 248-264) up to entering the tick
loop.  When `is_running` is already set it logs the warning and returns at
once: no job is scheduled, nothing is dispatched, the state is untouched.
Otherwise it sets the flag, registers the schedule table (schedule_jobs)
and immediately runs every registered handler once (run_all_now), then
enters the `while self.is_running` loop.  `regs` is the registration table
(name, cadence), `t0` the start instant; the second component is the log
warnings, the third the handlers dispatched before the loop with their
dispatch instant. -/
def startEnter (s : SchedulerState) (regs : List (String × ℚ)) (t0 : ℚ) :
    SchedulerState × List String × List (ℚ × String) :=
  if s.is_running then
    (s, ["Scheduler is already running"], [])
  else
    (⟨true, s.jobs ++ regs.map (fun r => mkScheduleJob r.1 r.2 t0)⟩,
     [], regs.map (fun r => (t0, r.1)))

/-- A fresh Scheduler started at `t0` with registrations `regs` and then
ticked at the instants `ticks`: the full dispatch record (instant, name) —
the immediate run-all pass followed by the tick loop's dispatches. -/
def startRun (regs : List (String × ℚ)) (t0 : ℚ) (ticks : List ℚ) : List (ℚ × String) :=
  let st := startEnter ⟨false, []⟩ regs t0
  st.2.2 ++ (tickLoop (fun _ => PyOutcome.ok ()) st.1.jobs ticks).2.map (fun e => (e.1, e.2.1))

/-- C7 counterexample — a job with cadence 15 registered at t = 0 that has
never run: the spec-worded due predicate makes it due at t = 0
(`lastRunAt` absent), but the schedule library the code uses initializes
`next_run` to registration + cadence, so `should_run` is false at t = 0 and
the tick loop ticking at t = 0, 10, 20 dispatches it only at t = 20 — not
at {0, 20} as the claim derives from its due rule. -/
theorem due_semantics_counterexample :
    specDue Option.none 15 0 false = true ∧
    SJob.should_run (mkScheduleJob "j" 15 0) 0 = false ∧
    (tickLoop (fun _ => PyOutcome.ok ()) [mkScheduleJob "j" 15 0] [0, 10, 20]).2.map
      (fun e => e.1) = [20] := by
  refine ⟨rfl, ?_, ?_⟩
  · norm_num [SJob.should_run, mkScheduleJob]
  · norm_num [tickLoop, run_pending, mkScheduleJob, SJob.should_run]

/-- C7 amended — the code's due rule is `next_run <= now` with `next_run`
initialized one full cadence after registration and reset to
dispatch time + cadence on each run: a never-run job is *not* due at its
registration instant, and a job dispatched at `s` is next due exactly when
`now >= s + cadence` (due-ness measured start-to-start, as the claim's
`now - lastRunAt >= cadence` rule says for jobs that have run).  The t = 0
execution of the claim's scenario comes from start()'s unconditional
run-all pass, not from due-ness: a scheduler started at t = 0 with a
cadence-15 job and ticks at t = 0, 10, 20 executes the job at exactly
{0, 20} — at 0 via the startup pass, at 20 via the tick loop (20 - 0 >= 15),
and not at t = 10. -/
theorem due_semantics_amended :
    (∀ (n : String) (p r t : ℚ), (mkScheduleJob n p r).should_run t = decide (r + p ≤ t)) ∧
    (∀ (j : SJob) (s t : ℚ) (beh : String → PyOutcome Unit), j.should_run s = true →
      (run_pending beh s [j]).1 = [⟨j.name, j.period, s + j.period⟩] ∧
      SJob.should_run ⟨j.name, j.period, s + j.period⟩ t = decide (s + j.period ≤ t)) ∧
    startRun [("j", 15)] 0 [0, 10, 20] = [(0, "j"), (20, "j")] := by
  refine ⟨fun n p r t => rfl, ?_,
    by norm_num [startRun, startEnter, tickLoop, run_pending, mkScheduleJob, SJob.should_run]⟩
  intro j s t beh hdue
  exact ⟨by simp [run_pending, hdue], rfl⟩

/-- Witness for C7's amended theorem: the scenario job, dispatched at
t = 20, is next due at t = 35. -/
theorem due_semantics_amended_witness :
    SJob.should_run ⟨"j", 15, 35⟩ 34 = false ∧
    SJob.should_run ⟨"j", 15, 35⟩ 35 = true ∧
    startRun [("j", 15)] 0 [0, 10, 20] = [(0, "j"), (20, "j")] :=
  ⟨by norm_num [SJob.should_run], by norm_num [SJob.should_run], due_semantics_amended.2.2⟩

/-- C10 — calling Scheduler.start() while `is_running` is already true logs
the warning and returns immediately: no job is scheduled, nothing is
dispatched, and the scheduler state (the flag and the schedule table) is
unchanged. -/
theorem start_already_running (s : SchedulerState) (regs : List (String × ℚ)) (t0 : ℚ)
    (h : s.is_running = true) :
    startEnter s regs t0 = (s, ["Scheduler is already running"], []) := by
  simp [startEnter, h]

/-- Witness for C10: a running scheduler with one registered job, started
again at t = 99 with a fresh registration table. -/
theorem start_already_running_witness :
    startEnter ⟨true, [mkScheduleJob "j" 15 0]⟩ [("k", 30)] 99 =
      (⟨true, [mkScheduleJob "j" 15 0]⟩, ["Scheduler is already running"], []) :=
  start_already_running ⟨true, [mkScheduleJob "j" 15 0]⟩ [("k", 30)] 99 rfl

/-! ## One-shot execution (run_all_fetchers.py) -/

/-- Execution events of DataPipelineRunner.run_all_fetchers: dispatch of a
fetcher, its completion, and the return from the call. -/
inductive RunEv where
  | start (n : String)
  | finish (n : String)
  | ret
deriving DecidableEq

def RunEv.isStart : RunEv → Bool
  | RunEv.start _ => true
  | _ => false

def RunEv.isFinish : RunEv → Bool
  | RunEv.finish _ => true
  | _ => false

/-- The registered fetcher table (FETCHERS, run_all_fetchers.py lines
61-78; the commented-out entries are not registered). -/
def FETCHER_NAMES : List String :=
  ["Bank Reports", "YouTube Videos", "Insider Trades", "Political Trades",
   "Hedge Fund Trades", "Financial News"]

/-- DataPipelineRunner.run_all_fetchers (run_all_fetchers.py lines
122-132): a plain `for` loop that `await`s each fetcher in table order, so
the next fetcher is dispatched only after the previous one finished.
Returns the per-fetcher results dict (through run_fetcher, so a raising
fetcher yields False) and the execution trace, which ends with the return
event. -/
def run_all_fetchers (init : String → Bool) (beh : String → PyOutcome Bool) :
    List String → List (String × Bool) × List RunEv
  | [] => ([], [RunEv.ret])
  | n :: rest =>
    let r := run_fetcher (init n) (beh n)
    let tail := run_all_fetchers init beh rest
    ((n, r) :: tail.1, RunEv.start n :: RunEv.finish n :: tail.2)

/-- Every dispatch precedes any completion — the trace shape a concurrent
`asyncio.gather` dispatch produces (all tasks started, then awaited):
after the first `finish` event no `start` event may occur. -/
def allStartsBeforeAnyFinish (tr : List RunEv) : Bool :=
  ((tr.dropWhile (fun e => !e.isFinish)).filter RunEv.isStart).isEmpty

lemma run_all_fetchers_results (init : String → Bool) (beh : String → PyOutcome Bool) :
    ∀ names : List String, (run_all_fetchers init beh names).1 =
      names.map (fun n => (n, run_fetcher (init n) (beh n))) := by
  intro names
  induction names with
  | nil => rfl
  | cons n rest ih => simp only [run_all_fetchers, List.map_cons, ih]

lemma run_all_fetchers_trace (init : String → Bool) (beh : String → PyOutcome Bool) :
    ∀ names : List String, (run_all_fetchers init beh names).2 =
      (names.map (fun n => [RunEv.start n, RunEv.finish n])).flatten ++ [RunEv.ret] := by
  intro names
  induction names with
  | nil => rfl
  | cons n rest ih =>
    simp only [run_all_fetchers, List.map_cons, List.flatten, ih, List.cons_append,
      List.nil_append]

/-! ### The Scheduler's registered-vs-run-all job tables (scheduler.py) -/

/-- The handlers Scheduler.schedule_jobs registers for a USER_TYPE
(scheduler.py lines 177-198); economic_report_fetcher is registered in both
branches (at different cadences). -/
def scheduled_job_names (ut : String) : List String :=
  (if ut = "trader" ∨ ut = "both" then
    ["market_data_trader", "option_flow_processor", "dark_pool_processor",
     "economic_report_fetcher"] else []) ++
  (if ut = "investor" ∨ ut = "both" then
    ["market_data_investor", "sec_edgar", "holdings_change_detector",
     "fundamental_analyzer", "economic_indicator_fetcher",
     "economic_report_fetcher", "interview_processor"] else [])

/-- The handlers Scheduler.run_all_now executes (scheduler.py lines
212-246): first the async jobs of the user type, gathered, then the
synchronous jobs (the trader-only branch still runs
economic_report_fetcher). -/
def run_all_now_names (ut : String) : List String :=
  ((if ut = "trader" ∨ ut = "both" then
    ["market_data_trader", "option_flow_processor", "dark_pool_processor"] else []) ++
   (if ut = "investor" ∨ ut = "both" then
    ["market_data_investor", "sec_edgar", "holdings_change_detector"] else [])) ++
  (if ut = "investor" ∨ ut = "both" then
    ["fundamental_analyzer", "economic_indicator_fetcher",
     "economic_report_fetcher", "interview_processor"]
   else if ut = "trader" then ["economic_report_fetcher"] else [])

/-- C6 counterexample — running the registered fetcher table one-shot, the
execution trace violates concurrent dispatch: the second fetcher's dispatch
occurs only after the first fetcher has already finished (the for loop
awaits each in turn), even though all 6 registered fetchers are run. -/
theorem run_all_concurrent_counterexample :
    allStartsBeforeAnyFinish
      (run_all_fetchers (fun _ => true) (fun _ => PyOutcome.ok true) FETCHER_NAMES).2 = false ∧
    ((run_all_fetchers (fun _ => true) (fun _ => PyOutcome.ok true) FETCHER_NAMES).2.filter
      RunEv.isStart).length = 6 := by
  exact ⟨rfl, rfl⟩

/-- C6 amended — one-shot runs execute every registered job regardless of
due-ness and complete them all before returning, but sequentially, not
concurrently: run_all_fetchers produces a result for every fetcher in table
order and its trace is strictly `start f; finish f` per fetcher followed by
the return (each job finishes before the next is dispatched, and all finish
before the call returns); and Scheduler.run_all_now executes exactly the
set of handler names schedule_jobs registers for the same user type (the
async ones via one gather, the synchronous ones in sequence after it). -/
theorem run_all_amended (names : List String) (init : String → Bool)
    (beh : String → PyOutcome Bool) :
    ((run_all_fetchers init beh names).1.map Prod.fst = names) ∧
    ((run_all_fetchers init beh names).2 =
      (names.map (fun n => [RunEv.start n, RunEv.finish n])).flatten ++ [RunEv.ret]) ∧
    (∀ ut n, n ∈ run_all_now_names ut ↔ n ∈ scheduled_job_names ut) := by
  refine ⟨?_, run_all_fetchers_trace init beh names, ?_⟩
  · rw [run_all_fetchers_results, List.map_map]
    have hid : (Prod.fst ∘ fun n : String => (n, run_fetcher (init n) (beh n))) = id := rfl
    rw [hid, List.map_id]
  · intro ut n
    by_cases hb : ut = "both"
    · subst hb
      have hA : run_all_now_names "both" =
        ["market_data_trader", "option_flow_processor", "dark_pool_processor",
         "market_data_investor", "sec_edgar", "holdings_change_detector",
         "fundamental_analyzer", "economic_indicator_fetcher",
         "economic_report_fetcher", "interview_processor"] := rfl
      have hB : scheduled_job_names "both" =
        ["market_data_trader", "option_flow_processor", "dark_pool_processor",
         "economic_report_fetcher", "market_data_investor", "sec_edgar",
         "holdings_change_detector", "fundamental_analyzer",
         "economic_indicator_fetcher", "economic_report_fetcher",
         "interview_processor"] := rfl
      rw [hA, hB]
      simp only [List.mem_cons, List.not_mem_nil, or_false]
      tauto
    · by_cases ht : ut = "trader"
      · subst ht
        have hA : run_all_now_names "trader" = scheduled_job_names "trader" := rfl
        rw [hA]
      · by_cases hi : ut = "investor"
        · subst hi
          have hA : run_all_now_names "investor" = scheduled_job_names "investor" := rfl
          rw [hA]
        · have hA : run_all_now_names ut = [] := by
            simp [run_all_now_names, hb, ht, hi]
          have hB : scheduled_job_names ut = [] := by
            simp [scheduled_job_names, hb, ht, hi]
          rw [hA, hB]

/-! ## One-shot summary and exit code (run_all_fetchers.py run_one_time and
main) -/

/-- run_one_time (run_all_fetchers.py lines 175-185): run every fetcher
once and log one SUCCESS/FAILED summary line per fetcher. -/
def run_one_time (names : List String) (init : String → Bool)
    (beh : String → PyOutcome Bool) : List (String × String) :=
  (run_all_fetchers init beh names).1.map
    (fun r => (r.1, if r.2 then "SUCCESS" else "FAILED"))

/-- main() in "once" mode without --fetcher (run_all_fetchers.py lines
202-237): `asyncio.run(run_one_time())`, then main falls through and the
interpreter exits normally — the only `sys.exit` in the file is the
import-failure one at line 44, which is not on this path.  The pair is
(the summary logged, the process exit status). -/
def main_once (names : List String) (init : String → Bool)
    (beh : String → PyOutcome Bool) : List (String × String) × ℕ :=
  (run_one_time names init beh, 0)

/-- C5 counterexample — a one-shot run over 5 registered jobs of which one
(j3) always raises: the logged summary reports 4 successes and 1 failure,
as the claim says, but the process exit code is 0, not non-zero. -/
theorem oneshot_exit_counterexample :
    ((main_once ["j1", "j2", "j3", "j4", "j5"] (fun _ => true)
        (fun n => if n = "j3" then PyOutcome.raises "boom" else PyOutcome.ok true)).1.filter
      (fun r => r.2 == "SUCCESS")).length = 4 ∧
    ((main_once ["j1", "j2", "j3", "j4", "j5"] (fun _ => true)
        (fun n => if n = "j3" then PyOutcome.raises "boom" else PyOutcome.ok true)).1.filter
      (fun r => r.2 == "FAILED")).length = 1 ∧
    (main_once ["j1", "j2", "j3", "j4", "j5"] (fun _ => true)
        (fun n => if n = "j3" then PyOutcome.raises "boom" else PyOutcome.ok true)).2 = 0 := by
  exact ⟨rfl, rfl, rfl⟩

/-- C5 amended — a one-shot run-all logs a per-job summary line (SUCCESS
exactly when the fetcher was initialized and returned truthily, FAILED on a
raised exception or a False return), but the process exit code is 0
regardless of how many jobs failed: no path of the one-shot modes calls
sys.exit with the aggregate outcome. -/
theorem oneshot_exit_amended (names : List String) (init : String → Bool)
    (beh : String → PyOutcome Bool) :
    (main_once names init beh).2 = 0 ∧
    (main_once names init beh).1 = names.map
      (fun n => (n, if run_fetcher (init n) (beh n) then "SUCCESS" else "FAILED")) := by
  refine ⟨rfl, ?_⟩
  show run_one_time names init beh = _
  rw [run_one_time, run_all_fetchers_results, List.map_map]
  rfl

/-! ## RateLimiter (economic_report_fetcher.py lines 43-61) -/

/-- RateLimiter.wait_if_needed at call instant `now`: drop every recorded
call time a minute or more old; if at least `calls_per_minute` remain,
sleep `60 - (now - call_times[0])` seconds (when positive); finally append
the post-sleep current time.  Returns the new `call_times` together with
the instant the call was recorded (the instant the method returns).
`Option.none` models the IndexError Python raises on `self.call_times[0]`
when the kept list is empty, which is reachable only with
`calls_per_minute = 0`. -/
def wait_if_needed (calls_per_minute : ℕ) (call_times : List ℚ) (now : ℚ) :
    Option (List ℚ × ℚ) :=
  let kept := call_times.filter (fun t => decide (now - t < 60))
  if calls_per_minute ≤ kept.length then
    match kept.head? with
    | Option.none => Option.none
    | some oldest =>
      let sleep_time := 60 - (now - oldest)
      let rt := if 0 < sleep_time then now + sleep_time else now
      some (kept ++ [rt], rt)
  else
    some (kept ++ [now], now)

/-- State of a serial run against one RateLimiter: the internal
`call_times` list, the full history of recorded call instants (what an
observer of the run has seen), and the instant the previous call
returned. -/
structure RLRun where
  calls : List ℚ
  hist : List ℚ
  now : ℚ

/-- One serial wait_if_needed call, issued `gap` seconds after the previous
call returned. -/
def rlStep (limit : ℕ) (r : RLRun) (gap : ℚ) : Option RLRun :=
  match wait_if_needed limit r.calls (r.now + gap) with
  | Option.none => Option.none
  | some p => some ⟨p.1, r.hist ++ [p.2], p.2⟩

/-- A serial run: starting with no recorded calls at instant `t0`, one
wait_if_needed call per entry of `gaps`. -/
def rlRun (limit : ℕ) (t0 : ℚ) (gaps : List ℚ) : Option RLRun :=
  gaps.foldlM (rlStep limit) ⟨[], [], t0⟩

/-- Number of recorded instants inside the trailing one-minute window
(e - 60, e] observed at instant `e`. -/
def histWin (l : List ℚ) (e : ℚ) : ℕ :=
  (l.filter (fun s => decide (e - 60 < s ∧ s ≤ e))).length

/-- Inductive invariant of a serial run: the history is nondecreasing; the
internal list is a suffix of the history whose dropped prefix is at least a
minute older than the last return instant; every recorded instant is in the
past; and no trailing one-minute window contains more than `limit` recorded
instants. -/
def RLInv (limit : ℕ) (r : RLRun) : Prop :=
  r.hist.Pairwise (· ≤ ·) ∧
  (∃ d, r.hist = d ++ r.calls ∧ ∀ s ∈ d, s ≤ r.now - 60) ∧
  (∀ s ∈ r.hist, s ≤ r.now) ∧
  (∀ e : ℚ, histWin r.hist e ≤ limit)

lemma length_filter_le_of_imp {α : Type} (l : List α) (p q : α → Bool)
    (h : ∀ a ∈ l, p a = true → q a = true) :
    (l.filter p).length ≤ (l.filter q).length := by
  induction l with
  | nil => simp
  | cons a t ih =>
    have ih' := ih fun x hx hp => h x (List.mem_cons_of_mem _ hx) hp
    by_cases hp : p a = true
    · have hq := h a (List.mem_cons_self a t) hp
      simp only [List.filter_cons, hp, hq, if_true, List.length_cons]
      omega
    · by_cases hq : q a = true
      · simp only [List.filter_cons, hp, hq, Bool.false_eq_true, if_false, if_true,
          List.length_cons]
        omega
      · simp only [List.filter_cons, hp, hq, Bool.false_eq_true, if_false]
        exact ih'

lemma sorted_filter_suffix (c : ℚ) :
    ∀ l : List ℚ, l.Pairwise (· ≤ ·) →
      ∃ d, l = d ++ l.filter (fun s => decide (c < s)) ∧ ∀ s ∈ d, s ≤ c := by
  intro l
  induction l with
  | nil => exact fun _ => ⟨[], rfl, by simp⟩
  | cons a t ih =>
    intro hs
    rw [List.pairwise_cons] at hs
    by_cases ha : c < a
    · refine ⟨[], ?_, by simp⟩
      have hall : (a :: t).filter (fun s => decide (c < s)) = a :: t := by
        rw [List.filter_eq_self]
        intro b hb
        rcases List.mem_cons.mp hb with rfl | hbt
        · simpa using ha
        · simpa using lt_of_lt_of_le ha (hs.1 b hbt)
      rw [hall]
      rfl
    · obtain ⟨d, hd, hdle⟩ := ih hs.2
      refine ⟨a :: d, ?_, ?_⟩
      · have hstep : (a :: t).filter (fun s => decide (c < s)) =
            t.filter (fun s => decide (c < s)) := by
          simp only [List.filter_cons, decide_eq_true_eq, ha, if_false]
        rw [hstep, List.cons_append, ← hd]
      · intro s hs'
        rcases List.mem_cons.mp hs' with rfl | hsd
        · exact le_of_not_lt ha
        · exact hdle s hsd

lemma wait_step (limit : ℕ) (hl : 1 ≤ limit) (r : RLRun) (now : ℚ)
    (hnow : r.now ≤ now) (hinv : RLInv limit r) :
    ∃ calls' rt, wait_if_needed limit r.calls now = some (calls', rt) ∧
      now ≤ rt ∧ RLInv limit ⟨calls', r.hist ++ [rt], rt⟩ := by
  obtain ⟨hsort, ⟨d, hd, hdle⟩, hle, hwin⟩ := hinv
  set kept := r.calls.filter (fun t => decide (now - t < 60)) with hkept
  -- facts shared by both branches
  have hcallsSorted : r.calls.Pairwise (· ≤ ·) :=
    (List.pairwise_append.mp (hd ▸ hsort)).2.1
  have hcallsHist : ∀ s ∈ r.calls, s ∈ r.hist := by
    intro s hs; rw [hd]; exact List.mem_append_right d hs
  have hkeptCalls : ∀ s ∈ kept, s ∈ r.calls := by
    intro s hs; exact (List.mem_filter.mp hs).1
  have hkeptWin : ∀ s ∈ kept, now - s < 60 := by
    intro s hs
    have := (List.mem_filter.mp hs).2
    simpa using this
  have hkeptLe : ∀ s ∈ kept, s ≤ now := by
    intro s hs
    exact le_trans (hle s (hcallsHist s (hkeptCalls s hs))) hnow
  have hfeq : kept = r.calls.filter (fun s => decide (now - 60 < s)) := by
    rw [hkept]
    exact List.filter_congr fun a _ => decide_eq_decide.mpr sub_lt_comm
  obtain ⟨d2, hd2, hd2le⟩ : ∃ d2, r.calls = d2 ++ kept ∧ ∀ s ∈ d2, s ≤ now - 60 := by
    obtain ⟨d2, hsplit, hle'⟩ := sorted_filter_suffix (now - 60) r.calls hcallsSorted
    exact ⟨d2, by rw [hfeq]; exact hsplit, hle'⟩
  have hkeptLen : kept.length ≤ limit := by
    have h1 : kept.length ≤ (r.calls.filter (fun s => decide (now - 60 < s ∧ s ≤ now))).length := by
      rw [hfeq]
      refine length_filter_le_of_imp _ _ _ ?_
      intro a ha hp
      have hp' : now - 60 < a := by simpa using hp
      have ha' : a ≤ now := le_trans (hle a (hcallsHist a ha)) hnow
      simpa using ⟨hp', ha'⟩
    have h2 : (r.calls.filter (fun s => decide (now - 60 < s ∧ s ≤ now))).length ≤
        (r.hist.filter (fun s => decide (now - 60 < s ∧ s ≤ now))).length := by
      rw [hd, List.filter_append, List.length_append]
      omega
    have h3 := hwin now
    rw [histWin] at h3
    omega
  have hdOld : ∀ s ∈ d, s ≤ now - 60 := by
    intro s hs
    have := hdle s hs
    linarith
  by_cases hif : limit ≤ kept.length
  -- limited branch: sleep until the oldest kept call leaves the window
  · obtain ⟨o, kt, hok⟩ : ∃ o kt, kept = o :: kt := by
      cases hkc : kept with
      | nil => rw [hkc] at hif; simp at hif; omega
      | cons o kt => exact ⟨o, kt, rfl⟩
    have hoMem : o ∈ kept := by rw [hok]; exact List.mem_cons_self o kt
    have hoWin : now - o < 60 := hkeptWin o hoMem
    have hoSleep : (0 : ℚ) < 60 - (now - o) := by linarith
    have heq : wait_if_needed limit r.calls now =
        some (kept ++ [now + (60 - (now - o))], now + (60 - (now - o))) := by
      rw [wait_if_needed]
      simp only [← hkept]
      rw [if_pos hif, hok]
      simp only [List.head?_cons]
      rw [if_pos hoSleep]
    set rt := now + (60 - (now - o)) with hrtdef
    have hrt60 : rt - 60 = o := by rw [hrtdef]; ring
    have hnowrt : now ≤ rt := by rw [hrtdef]; linarith
    refine ⟨kept ++ [rt], rt, heq, hnowrt, ?_, ?_, ?_, ?_⟩
    · -- history stays sorted
      rw [List.pairwise_append]
      refine ⟨hsort, List.pairwise_singleton _ _, ?_⟩
      intro x hx y hy
      rw [List.mem_singleton] at hy
      subst hy
      exact le_trans (hle x hx) (le_trans hnow hnowrt)
    · -- suffix decomposition
      refine ⟨d ++ d2, ?_, ?_⟩
      · show r.hist ++ [rt] = (d ++ d2) ++ (kept ++ [rt])
        rw [hd, hd2]
        simp [List.append_assoc]
      · intro s hs
        rcases List.mem_append.mp hs with hsd | hsd2
        · have := hdOld s hsd; linarith [hnowrt]
        · have := hd2le s hsd2; linarith [hnowrt]
    · -- everything recorded is in the past
      intro s hs
      rcases List.mem_append.mp hs with hsh | hsrt
      · exact le_trans (hle s hsh) (le_trans hnow hnowrt)
      · rw [List.mem_singleton] at hsrt; exact le_of_eq hsrt
    · -- window bound, with strict room below the newly recorded instant
      have hroom : (r.hist.filter (fun s => decide (rt - 60 < s))).length + 1 ≤ limit := by
        rw [hd, hd2, List.filter_append, List.filter_append, hok]
        have hdnil : (d.filter (fun s => decide (rt - 60 < s))).length = 0 := by
          rw [List.length_eq_zero, List.filter_eq_nil_iff]
          intro a ha
          have h1 := hdOld a ha
          have h2 : a < rt - 60 := by rw [hrt60]; linarith
          simp only [decide_eq_true_eq]
          linarith
        have hd2nil : (d2.filter (fun s => decide (rt - 60 < s))).length = 0 := by
          rw [List.length_eq_zero, List.filter_eq_nil_iff]
          intro a ha
          have h1 := hd2le a ha
          have h2 : a < rt - 60 := by rw [hrt60]; linarith
          simp only [decide_eq_true_eq]
          linarith
        have hhead : ((o :: kt).filter (fun s => decide (rt - 60 < s))).length ≤ kt.length := by
          have hstep : ((o :: kt).filter (fun s => decide (rt - 60 < s))) =
              kt.filter (fun s => decide (rt - 60 < s)) := by
            simp only [List.filter_cons, hrt60, decide_eq_true_eq, lt_irrefl, if_false]
          rw [hstep]
          exact List.length_filter_le _ kt
        have hklen : kt.length + 1 = kept.length := by rw [hok]; rfl
        simp only [List.length_append]
        omega
      intro e
      rw [histWin, List.filter_append]
      by_cases hin : (e - 60 < rt ∧ rt ≤ e)
      · have hsing : ([rt].filter (fun s => decide (e - 60 < s ∧ s ≤ e))).length = 1 := by
          simp [hin.1, hin.2]
        have hmono : (r.hist.filter (fun s => decide (e - 60 < s ∧ s ≤ e))).length ≤
            (r.hist.filter (fun s => decide (rt - 60 < s))).length := by
          refine length_filter_le_of_imp _ _ _ ?_
          intro a _ hp
          have hp' : e - 60 < a ∧ a ≤ e := by simpa using hp
          have : rt - 60 < a := by
            have : rt - 60 ≤ e - 60 := by linarith [hin.2]
            linarith [hp'.1]
          simpa using this
        rw [List.length_append, hsing]
        omega
      · have hsing : ([rt].filter (fun s => decide (e - 60 < s ∧ s ≤ e))).length = 0 := by
          simp only [List.filter_cons, List.filter_nil, decide_eq_true_eq]
          rw [if_neg hin]
          rfl
        rw [List.length_append, hsing]
        have := hwin e
        rw [histWin] at this
        omega
  -- free branch: fewer than limit calls in the window, record immediately
  · have heq : wait_if_needed limit r.calls now = some (kept ++ [now], now) := by
      rw [wait_if_needed]
      simp only [← hkept]
      rw [if_neg hif]
    refine ⟨kept ++ [now], now, heq, le_refl now, ?_, ?_, ?_, ?_⟩
    · rw [List.pairwise_append]
      refine ⟨hsort, List.pairwise_singleton _ _, ?_⟩
      intro x hx y hy
      rw [List.mem_singleton] at hy
      subst hy
      exact le_trans (hle x hx) hnow
    · refine ⟨d ++ d2, ?_, ?_⟩
      · show r.hist ++ [now] = (d ++ d2) ++ (kept ++ [now])
        rw [hd, hd2]
        simp [List.append_assoc]
      · intro s hs
        rcases List.mem_append.mp hs with hsd | hsd2
        · exact hdOld s hsd
        · exact hd2le s hsd2
    · intro s hs
      rcases List.mem_append.mp hs with hsh | hsn
      · exact le_trans (hle s hsh) hnow
      · rw [List.mem_singleton] at hsn; exact le_of_eq hsn
    · have hroom : (r.hist.filter (fun s => decide (now - 60 < s))).length + 1 ≤ limit := by
        rw [hd, hd2, List.filter_append, List.filter_append]
        have hdnil : (d.filter (fun s => decide (now - 60 < s))).length = 0 := by
          rw [List.length_eq_zero, List.filter_eq_nil_iff]
          intro a ha
          have h1 := hdOld a ha
          simp only [decide_eq_true_eq]
          intro h2
          linarith
        have hd2nil : (d2.filter (fun s => decide (now - 60 < s))).length = 0 := by
          rw [List.length_eq_zero, List.filter_eq_nil_iff]
          intro a ha
          have h1 := hd2le a ha
          simp only [decide_eq_true_eq]
          intro h2
          linarith
        have hkeq : kept.filter (fun s => decide (now - 60 < s)) = kept := by
          rw [List.filter_eq_self]
          intro a ha
          have := hkeptWin a ha
          simp only [decide_eq_true_eq]
          linarith
        simp only [List.length_append]
        rw [hkeq]
        omega
      intro e
      rw [histWin, List.filter_append]
      by_cases hin : (e - 60 < now ∧ now ≤ e)
      · have hsing : ([now].filter (fun s => decide (e - 60 < s ∧ s ≤ e))).length = 1 := by
          simp [hin.1, hin.2]
        have hmono : (r.hist.filter (fun s => decide (e - 60 < s ∧ s ≤ e))).length ≤
            (r.hist.filter (fun s => decide (now - 60 < s))).length := by
          refine length_filter_le_of_imp _ _ _ ?_
          intro a _ hp
          have hp' : e - 60 < a ∧ a ≤ e := by simpa using hp
          have : now - 60 < a := by
            have : now - 60 ≤ e - 60 := by linarith [hin.2]
            linarith [hp'.1]
          simpa using this
        rw [List.length_append, hsing]
        omega
      · have hsing : ([now].filter (fun s => decide (e - 60 < s ∧ s ≤ e))).length = 0 := by
          simp only [List.filter_cons, List.filter_nil, decide_eq_true_eq]
          rw [if_neg hin]
          rfl
        rw [List.length_append, hsing]
        have := hwin e
        rw [histWin] at this
        omega

lemma RLInv_init (limit : ℕ) (t0 : ℚ) : RLInv limit ⟨[], [], t0⟩ := by
  refine ⟨List.Pairwise.nil, ⟨[], rfl, by simp⟩, by simp, ?_⟩
  intro e
  simp [histWin]

lemma rlRun_go (limit : ℕ) (hl : 1 ≤ limit) :
    ∀ (gaps : List ℚ) (r : RLRun), (∀ g ∈ gaps, 0 ≤ g) → RLInv limit r →
      ∃ r' : RLRun, List.foldlM (rlStep limit) r gaps = some r' ∧ RLInv limit r' ∧
        r'.hist.length = r.hist.length + gaps.length := by
  intro gaps
  induction gaps with
  | nil => intro r _ hinv; exact ⟨r, rfl, hinv, by simp⟩
  | cons g gs ih =>
    intro r hg hinv
    have hnow : r.now ≤ r.now + g := by
      have := hg g (List.mem_cons_self g gs)
      linarith
    obtain ⟨calls', rt, heq, _, hinv'⟩ := wait_step limit hl r (r.now + g) hnow hinv
    obtain ⟨r', hrun, hinv'', hlen⟩ :=
      ih ⟨calls', r.hist ++ [rt], rt⟩ (fun x hx => hg x (List.mem_cons_of_mem g hx)) hinv'
    refine ⟨r', ?_, hinv'', ?_⟩
    · rw [List.foldlM_cons]
      have hstep : rlStep limit r g = some ⟨calls', r.hist ++ [rt], rt⟩ := by
        rw [rlStep, heq]
      rw [hstep]
      exact hrun
    · simp only [List.length_cons] at hlen ⊢
      simp only [List.length_append, List.length_cons, List.length_nil] at hlen
      omega

/-- C2 — Rate-limiter sliding-window invariant, for any positive limit
(the source configures 15/min for the Gemini limiter and 30/min for the
HTTP limiter): over every serial sequence of wait_if_needed calls, each
issued an arbitrary nonnegative delay after the previous one returned,
every call completes without signaling any error (a caller over budget is
only delayed by the internal sleep), every call gets recorded, the recorded
instants are nondecreasing, and no trailing 60-second window observed at
any instant `e` holds more than `limit` recorded calls — in particular, at
every instant the number of recorded call timestamps younger than the
window length is at most `limit`. -/
theorem rateLimiter_sliding_window (limit : ℕ) (t0 : ℚ) (gaps : List ℚ)
    (hl : 1 ≤ limit) (hg : ∀ g ∈ gaps, 0 ≤ g) :
    ∃ r : RLRun, rlRun limit t0 gaps = some r ∧
      r.hist.length = gaps.length ∧
      r.hist.Pairwise (· ≤ ·) ∧
      ∀ e : ℚ, histWin r.hist e ≤ limit := by
  obtain ⟨r, hrun, hinv, hlen⟩ :=
    rlRun_go limit hl gaps ⟨[], [], t0⟩ hg (RLInv_init limit t0)
  exact ⟨r, hrun, by simpa using hlen, hinv.1, hinv.2.2.2⟩

/-- Witness for C2: a limiter with budget 2 per minute hit by three
back-to-back calls starting at t = 0. -/
theorem rateLimiter_sliding_window_witness :
    ∃ r : RLRun, rlRun 2 0 [0, 0, 0] = some r ∧
      r.hist.length = 3 ∧
      r.hist.Pairwise (· ≤ ·) ∧
      ∀ e : ℚ, histWin r.hist e ≤ 2 :=
  rateLimiter_sliding_window 2 0 [0, 0, 0] (by norm_num)
    (by intro g hg; simp only [List.mem_cons, List.not_mem_nil, or_false] at hg;
        rcases hg with rfl | rfl | rfl <;> norm_num)
